import Mathlib

/-!
Shallow embedding of the unstructured-data pipeline
(`src/content_extraction.py`, `src/deep_review.py`, `src/pipeline.py`).

Text values are modelled as `List Char` (Python strings are sequences of
code points).  Python's `float` confidences and scores are exact decimal
values in the source, so they are modelled as `ℚ`.  The wall-clock
`extraction_timestamp` field is the single impure read of the system and
is omitted from the metadata record; no claim mentions it.  The five
cryptographic digests of `DeepReviewer.generate_hash` are library calls
(md5/sha1/sha256/sha512) whose internals are outside the repository; no
claim depends on digest values, so the hash record is likewise omitted.
-/

/-- Whitespace class of Python's `\s` used by `re.sub(r'\s+', ' ', ...)`,
`str.strip()` and `re.split` (ASCII part: space, tab, newline, carriage
return, vertical tab, form feed). -/
def pyIsSpace (c : Char) : Bool :=
  c == ' ' || c == '\t' || c == '\n' || c == '\r' ||
  c == Char.ofNat 0x0b || c == Char.ofNat 0x0c

/-- Embedding of `re.sub(r'\s+', ' ', data)` from `parse_text` (line 52):
each maximal run of whitespace characters is replaced by a single space.
A whitespace character followed by more whitespace is dropped, so exactly
one space survives per run. -/
def collapse : List Char → List Char
  | [] => []
  | c :: cs =>
    let rest := collapse cs
    if pyIsSpace c then
      match cs.head? with
      | some d => if pyIsSpace d then rest else ' ' :: rest
      | none => [' ']
    else c :: rest

/-- Leading-whitespace removal, one half of Python's `str.strip()`. -/
def stripLeft (l : List Char) : List Char := l.dropWhile pyIsSpace

/-- Trailing-whitespace removal, the other half of Python's `str.strip()`. -/
def stripRight (l : List Char) : List Char :=
  (l.reverse.dropWhile pyIsSpace).reverse

/-- Embedding of Python's `str.strip()`. -/
def pyStrip (l : List Char) : List Char := stripRight (stripLeft l)

/-- Embedding of `re.sub(r'\s+', ' ', data).strip()` from `parse_text`:
collapse whitespace runs to single spaces, then trim both ends. -/
def cleanText (l : List Char) : List Char := pyStrip (collapse l)

/-- Sentence-boundary characters of `re.split(r'[.!?]+', cleaned)`. -/
def isSentenceSep (c : Char) : Bool := c == '.' || c == '!' || c == '?'

/-- Embedding of `re.split(r'[.!?]+', cleaned)`: split on each maximal run
of sentence separators, keeping empty segments (as Python's `re.split`
does before the comprehension filters them). -/
def splitSeps : List Char → List (List Char)
  | [] => [[]]
  | c :: cs =>
    let rest := splitSeps cs
    if isSentenceSep c then
      match cs.head? with
      | some d => if isSentenceSep d then rest else [] :: rest
      | none => [] :: rest
    else
      match rest with
      | [] => [[c]]
      | s :: ts => (c :: s) :: ts

/-- Embedding of `[s.strip() for s in sentences if s.strip()]` applied to
the raw split (lines 55-56 of `content_extraction.py`). -/
def sentencesOf (cleaned : List Char) : List (List Char) :=
  ((splitSeps cleaned).map pyStrip).filter (fun s => !s.isEmpty)

/-- Word characters of Python's `\w` (ASCII part: letters, digits,
underscore). -/
def isWordChar (c : Char) : Bool := c.isAlphanum || c == '_'

/-- Embedding of `re.findall(r'\b\w+\b', cleaned)`: the maximal runs of
word characters, in order. -/
def wordsOf : List Char → List (List Char)
  | [] => []
  | c :: cs =>
    let rest := wordsOf cs
    if isWordChar c then
      match cs.head? with
      | some d =>
        if isWordChar d then
          match rest with
          | [] => [[c]]
          | t :: ts => (c :: t) :: ts
        else [c] :: rest
      | none => [[c]]
    else rest

/-- Result shape of `ContentExtractor.parse_text`. -/
structure TextData where
  raw : List Char
  cleaned : List Char
  sentences : List (List Char)
  words : List (List Char)
  sentence_count : Nat
  word_count : Nat
  char_count : Nat
deriving Repr, DecidableEq

/-- Embedding of `ContentExtractor.parse_text`. -/
def parse_text (data : List Char) : TextData :=
  let cleaned := cleanText data
  { raw := data
    cleaned := cleaned
    sentences := sentencesOf cleaned
    words := wordsOf cleaned
    sentence_count := (sentencesOf cleaned).length
    word_count := (wordsOf cleaned).length
    char_count := data.length }

/-- UTF-8 byte width of one code point, as computed by Python's
`str.encode('utf-8')`. -/
def utf8CharSize (c : Char) : Nat :=
  if c.toNat < 0x80 then 1
  else if c.toNat < 0x800 then 2
  else if c.toNat < 0x10000 then 3
  else 4

/-- Embedding of `len(data.encode('utf-8'))`. -/
def utf8ByteLength (l : List Char) : Nat := (l.map utf8CharSize).sum

/-- Embedding of Python's non-overlapping substring counter `str.count`:
scan left to right, and on a match skip the whole pattern.  Every pattern
used by the language heuristic is non-empty, so the `max` in the skip
distance never matters. -/
def countSubstr : List Char → List Char → Nat
  | [], _ => 0
  | c :: cs, pat =>
    if pat.isPrefixOf (c :: cs) then
      1 + countSubstr ((c :: cs).drop (max pat.length 1)) pat
    else countSubstr cs pat
termination_by l _ => l.length
decreasing_by
  · simp only [List.length_drop, List.length_cons]
    omega
  · simp

/-- Embedding of Python's `str.lower()` (ASCII case folding). -/
def pyLower (l : List Char) : List Char := l.map Char.toLower

/-- The fixed list `common_english_words` of `_detect_language_hint`. -/
def commonEnglishWords : List (List Char) :=
  ["the".toList, "is".toList, "at".toList, "which".toList,
   "on".toList, "a".toList, "an".toList]

/-- Embedding of the aggregate count of `_detect_language_hint` (lines
151-156): for each common word, the non-overlapping counts of
`' '+w+' '`, `' '+w` and `w+' '` in the lower-cased text are summed, plus
one for each common word the lower-cased text starts with (followed by a
space). -/
def englishCount (data : List Char) : Nat :=
  let dl := pyLower data
  (commonEnglishWords.map (fun w =>
      countSubstr dl (' ' :: (w ++ [' '])) +
      countSubstr dl (' ' :: w) +
      countSubstr dl (w ++ [' ']))).sum +
  commonEnglishWords.countP (fun w => (w ++ [' ']).isPrefixOf dl)

/-- Embedding of `ContentExtractor._detect_language_hint`. -/
def detect_language_hint (data : List Char) : String :=
  if englishCount data ≥ 2 then "likely_english" else "unknown"

/-- Result shape of `ContentExtractor.capture_metadata`, minus the
wall-clock timestamp (see the module comment). -/
structure Metadata where
  source_name : List Char
  data_size_bytes : Nat
  line_count : Nat
  has_special_chars : Bool
  language_hint : String
deriving Repr, DecidableEq

/-- Embedding of `ContentExtractor.capture_metadata`. -/
def capture_metadata (data source_name : List Char) : Metadata :=
  { source_name := source_name
    data_size_bytes := utf8ByteLength data
    line_count := data.count '\n' + 1
    has_special_chars := data.any (fun c => !(c.isAlphanum || pyIsSpace c))
    language_hint := detect_language_hint data }

/-- The constructor constant `self.supported_formats`. -/
def supported_formats : List String := ["txt", "json", "csv", "xml", "html", "md"]

/-- Embedding of `source_name.rsplit('.', 1)[1].lower()` guarded by
`'.' in source_name`: the lower-cased text after the last dot, when a dot
exists. -/
def lastExtension (name : List Char) : Option (List Char) :=
  if name.contains '.' then
    some (pyLower ((name.reverse.takeWhile (fun c => c != '.')).reverse))
  else none

/-- Embedding of `re.match(r'^#+\s+', data, re.MULTILINE)`: `re.match`
anchors at position 0 regardless of the MULTILINE flag, so this holds
exactly when the text begins with one or more `#` followed by at least
one whitespace character. -/
def mdMatch (data : List Char) : Bool :=
  !(data.takeWhile (fun c => c == '#')).isEmpty &&
  (match (data.dropWhile (fun c => c == '#')).head? with
   | some c => pyIsSpace c
   | none => false)

/-- Content-based phase of `detect_format` (lines 114-129): the ordered
fallback rules producing a type and a confidence. -/
def contentDetect (data : List Char) : String × ℚ :=
  if (pyStrip data).head? == some '{' && (pyStrip data).getLast? == some '}' then
    ("json", 7/10)
  else if (pyStrip data).head? == some '<' && (pyStrip data).getLast? == some '>' then
    ("xml", 7/10)
  else if mdMatch data then ("md", 3/5)
  else if data.contains ',' && data.contains '\n' then ("csv", 1/2)
  else ("txt", 1/2)

/-- Result shape of `ContentExtractor.detect_format`. -/
structure FormatInfo where
  detected_type : String
  confidence : ℚ
  supported : Bool
deriving Repr, DecidableEq

/-- Embedding of `ContentExtractor.detect_format`: the extension phase
resolves first when the last extension is a supported format; otherwise
the content rules run; `supported` is membership of the final type in
`supported_formats`. -/
def detect_format (data source_name : List Char) : FormatInfo :=
  match lastExtension source_name with
  | some ext =>
    if String.mk ext ∈ supported_formats then
      { detected_type := String.mk ext, confidence := 4/5
        supported := decide (String.mk ext ∈ supported_formats) }
    else
      { detected_type := (contentDetect data).1
        confidence := (contentDetect data).2
        supported := decide ((contentDetect data).1 ∈ supported_formats) }
  | none =>
    { detected_type := (contentDetect data).1
      confidence := (contentDetect data).2
      supported := decide ((contentDetect data).1 ∈ supported_formats) }

/-- Result shape of `ContentExtractor.extract`. -/
structure ExtractionRecord where
  text : TextData
  metadata : Metadata
  format : FormatInfo
deriving Repr, DecidableEq

/-- Embedding of `ContentExtractor.extract`. -/
def extract (data source_name : List Char) : ExtractionRecord :=
  { text := parse_text data
    metadata := capture_metadata data source_name
    format := detect_format data source_name }

/-! Embedding of `src/deep_review.py`. -/

/-- One entry of the point-by-point validation table: measured value,
pass flag, and the rule description string. -/
structure CheckResult where
  value : Nat
  valid : Bool
  rule : String
deriving Repr, DecidableEq

/-- The `summary` entry appended by `validate_points`. -/
structure ValidationSummary where
  total_checks : Nat
  passed : Nat
  score : ℚ
deriving Repr, DecidableEq

/-- Result shape of `DeepReviewer.validate_points`: the four named checks
plus the summary. -/
structure PointValidation where
  word_count : CheckResult
  char_count : CheckResult
  sentence_structure : CheckResult
  data_size : CheckResult
  summary : ValidationSummary
deriving Repr, DecidableEq

/-- The constructor constant `self.validation_rules['min_words']`. -/
def min_words : Nat := 1

/-- The constructor constant `self.validation_rules['min_chars']`. -/
def min_chars : Nat := 1

/-- Embedding of `DeepReviewer.validate_points`: four independent checks,
then a summary whose score divides the pass count by the number of
checks (guarded against a zero denominator as in the source). -/
def validate_points (text_data : TextData) (metadata : Metadata) : PointValidation :=
  let wc : CheckResult :=
    { value := text_data.word_count
      valid := text_data.word_count ≥ min_words
      rule := "minimum 1 words" }
  let cc : CheckResult :=
    { value := text_data.char_count
      valid := text_data.char_count ≥ min_chars
      rule := "minimum 1 characters" }
  let sc : CheckResult :=
    { value := text_data.sentence_count
      valid := text_data.sentence_count > 0
      rule := "at least one sentence" }
  let ds : CheckResult :=
    { value := metadata.data_size_bytes
      valid := metadata.data_size_bytes > 0
      rule := "non-empty data" }
  let valid_count := [wc, cc, sc, ds].countP (fun v => v.valid)
  let total_checks := [wc, cc, sc, ds].length
  { word_count := wc
    char_count := cc
    sentence_structure := sc
    data_size := ds
    summary :=
      { total_checks := total_checks
        passed := valid_count
        score := if total_checks > 0 then (valid_count : ℚ) / total_checks else 0 } }

/-- One entry of `word_details`, the per-token analysis of
`verify_words`. -/
structure WordDetail where
  position : Nat
  word : List Char
  length : Nat
  is_alphanumeric : Bool
  is_numeric : Bool
  is_alpha : Bool
deriving Repr, DecidableEq

/-- Embedding of Python's `str.isalpha`: non-empty and all alphabetic
(ASCII model). -/
def pyIsAlphaStr (w : List Char) : Bool := !w.isEmpty && w.all Char.isAlpha

/-- Embedding of Python's `str.isdigit`: non-empty and all digits. -/
def pyIsDigitStr (w : List Char) : Bool := !w.isEmpty && w.all Char.isDigit

/-- Embedding of Python's `str.isalnum`: non-empty and all alphanumeric
(ASCII model). -/
def pyIsAlnumStr (w : List Char) : Bool := !w.isEmpty && w.all Char.isAlphanum

/-- The per-token record built in the loop of `verify_words`. -/
def analyzeWord (idx : Nat) (w : List Char) : WordDetail :=
  { position := idx
    word := w
    length := w.length
    is_alphanumeric := pyIsAlnumStr w
    is_numeric := pyIsDigitStr w
    is_alpha := pyIsAlphaStr w }

/-- Result shape of `DeepReviewer.verify_words`. -/
structure WordVerification where
  total_words : Nat
  alpha_words : Nat
  numeric_words : Nat
  alphanumeric_words : Int
  average_word_length : ℚ
  unique_words : Nat
  word_details : List WordDetail
deriving Repr, DecidableEq

/-- Embedding of `DeepReviewer.verify_words`: aggregate statistics over
the full token list, per-token details truncated to the first 100. -/
def verify_words (text_data : TextData) : WordVerification :=
  let words := text_data.words
  let word_analysis := words.enum.map (fun p => analyzeWord p.1 p.2)
  let total_words := words.length
  let alpha_words := words.countP pyIsAlphaStr
  let numeric_words := words.countP pyIsDigitStr
  { total_words := total_words
    alpha_words := alpha_words
    numeric_words := numeric_words
    alphanumeric_words := (total_words : Int) - alpha_words - numeric_words
    average_word_length :=
      if total_words > 0 then ((words.map List.length).sum : ℚ) / total_words else 0
    unique_words := words.dedup.length
    word_details := word_analysis.take 100 }

/-- The three terminal statuses of `_determine_overall_status`. -/
inductive Status where
  | VALID
  | WARNING
  | INVALID
deriving Repr, DecidableEq

/-- Embedding of `DeepReviewer._determine_overall_status`: the method
reads only `word_count` and `char_count` out of its two dictionary
arguments, so it is embedded as a function of those two numbers. -/
def determine_overall_status (word_count char_count : Nat) : Status :=
  if word_count = 0 ∨ char_count = 0 then Status.INVALID
  else if word_count < 5 then Status.WARNING
  else Status.VALID

/-- Result shape of `DeepReviewer.review`, minus the digest record (see
the module comment). -/
structure ReviewRecord where
  point_by_point_validation : PointValidation
  word_by_word_verification : WordVerification
  overall_status : Status
deriving Repr, DecidableEq

/-- Embedding of `DeepReviewer.review`. -/
def review (extracted : ExtractionRecord) : ReviewRecord :=
  { point_by_point_validation := validate_points extracted.text extracted.metadata
    word_by_word_verification := verify_words extracted.text
    overall_status :=
      determine_overall_status extracted.text.word_count extracted.text.char_count }

/-! Embedding of `src/pipeline.py`. -/

/-- The `input` block of the pipeline report. -/
structure InputInfo where
  source_name : List Char
  data_preview : List Char
deriving Repr, DecidableEq

/-- Result shape of `UnstructuredDataPipeline.process`. -/
structure Report where
  input : InputInfo
  extraction : ExtractionRecord
  review : ReviewRecord
  pipeline_status : String
deriving Repr, DecidableEq

/-- Embedding of the preview expression
`data[:100] + '...' if len(data) > 100 else data`. -/
def dataPreview (data : List Char) : List Char :=
  if data.length > 100 then data.take 100 ++ "...".toList else data

/-- Embedding of `UnstructuredDataPipeline.process`: extraction, then
review, then report assembly.  The function is total over strings; the
source defines no input-rejection path. -/
def process (data source_name : List Char) : Report :=
  let extracted := extract data source_name
  let reviewed := review extracted
  { input := { source_name := source_name, data_preview := dataPreview data }
    extraction := extracted
    review := reviewed
    pipeline_status := "completed" }

/-- Modelled from the spec for the refinement side of the markdown rule
of claim C2: the any-line reading — some `'\n'`-separated line of the
text starts with one or more `#` followed by whitespace.  The source's
`re.match` only ever tests the start of the whole text, so this is the
spec's words, not the code. -/
def specMdAnyLine (data : List Char) : Bool :=
  (data.splitOn '\n').any mdMatch

/-- Normal form produced by `collapse`: every whitespace character is a
plain space, and no two adjacent characters are both whitespace. -/
def Collapsed (l : List Char) : Prop :=
  (∀ c ∈ l, pyIsSpace c = true → c = ' ') ∧
  List.Chain' (fun a b => pyIsSpace a = false ∨ pyIsSpace b = false) l

/-! Helper lemmas on `dropWhile`, stripping and collapsing. -/

theorem mem_dropWhile_of_not {α : Type*} (p : α → Bool) :
    ∀ (l : List α) (c : α), c ∈ l → p c = false → c ∈ l.dropWhile p := by
  intro l
  induction l with
  | nil => intro c hc _; cases hc
  | cons a as ih =>
    intro c hc hpc
    rw [List.dropWhile_cons]
    by_cases ha : p a = true
    · rw [if_pos ha]
      rcases List.mem_cons.mp hc with rfl | hc'
      · rw [ha] at hpc; cases hpc
      · exact ih c hc' hpc
    · rw [if_neg ha]
      exact hc

theorem head?_dropWhile_not {α : Type*} (p : α → Bool) :
    ∀ (l : List α) (a : α), (l.dropWhile p).head? = some a → p a = false := by
  intro l
  induction l with
  | nil => intro a h; cases h
  | cons b bs ih =>
    intro a h
    rw [List.dropWhile_cons] at h
    by_cases hb : p b = true
    · rw [if_pos hb] at h; exact ih a h
    · rw [if_neg hb] at h
      simp only [List.head?_cons, Option.some.injEq] at h
      subst h
      simp only [Bool.not_eq_true] at hb
      exact hb

theorem dropWhile_idem {α : Type*} (p : α → Bool) (l : List α) :
    (l.dropWhile p).dropWhile p = l.dropWhile p := by
  cases h : l.dropWhile p with
  | nil => rfl
  | cons a as =>
    have ha : p a = false := head?_dropWhile_not p l a (by rw [h]; rfl)
    rw [List.dropWhile_cons, if_neg (by simp [ha])]

theorem stripLeft_eq_self {l : List Char}
    (h : ∀ a, l.head? = some a → pyIsSpace a = false) : stripLeft l = l := by
  cases l with
  | nil => rfl
  | cons a as =>
    unfold stripLeft
    rw [List.dropWhile_cons, if_neg (by simp [h a rfl])]

theorem stripRight_idem (l : List Char) : stripRight (stripRight l) = stripRight l := by
  unfold stripRight
  rw [List.reverse_reverse, dropWhile_idem]

theorem stripRight_isPrefixOfList (l : List Char) : stripRight l <+: l := by
  apply List.reverse_suffix.mp
  rw [stripRight, List.reverse_reverse]
  exact List.dropWhile_suffix pyIsSpace

theorem stripLeft_isSuffixOfList (l : List Char) : stripLeft l <:+ l :=
  List.dropWhile_suffix pyIsSpace

theorem pyStrip_isInfixOfList (l : List Char) : pyStrip l <:+: l := by
  obtain ⟨t, ht⟩ := stripRight_isPrefixOfList (stripLeft l)
  obtain ⟨s, hs⟩ := stripLeft_isSuffixOfList l
  refine ⟨s, t, ?_⟩
  show s ++ stripRight (stripLeft l) ++ t = l
  rw [List.append_assoc, ht, hs]

theorem pyStrip_idem (l : List Char) : pyStrip (pyStrip l) = pyStrip l := by
  have h1 : stripLeft (stripRight (stripLeft l)) = stripRight (stripLeft l) := by
    apply stripLeft_eq_self
    intro a ha
    rcases stripRight_isPrefixOfList (stripLeft l) with ⟨t, ht⟩
    have hhead : (stripLeft l).head? = some a := by
      rw [← ht]
      cases hsr : stripRight (stripLeft l) with
      | nil => rw [hsr] at ha; cases ha
      | cons b bs =>
        rw [hsr] at ha
        simp only [List.head?_cons, Option.some.injEq] at ha
        subst ha
        simp
    exact head?_dropWhile_not pyIsSpace l a hhead
  show stripRight (stripLeft (stripRight (stripLeft l))) = _
  rw [h1, stripRight_idem]
  rfl

theorem collapse_cons_not_space {c : Char} (cs : List Char) (h : pyIsSpace c = false) :
    collapse (c :: cs) = c :: collapse cs := by
  simp [collapse, h]

theorem collapse_mem_space (l : List Char) :
    ∀ c ∈ collapse l, pyIsSpace c = true → c = ' ' := by
  induction l using collapse.induct with
  | case1 => intro c hc; cases hc
  | case2 c cs hc d hd hpd ih =>
    intro x hx hsx
    have hcol : collapse (c :: cs) = collapse cs := by simp [collapse, hc, hd, hpd]
    rw [hcol] at hx
    exact ih x hx hsx
  | case3 c cs hc d hd hpd ih =>
    intro x hx hsx
    have hpd' : pyIsSpace d = false := by simpa using hpd
    have hcol : collapse (c :: cs) = ' ' :: collapse cs := by
      simp [collapse, hc, hd, hpd']
    rw [hcol] at hx
    rcases List.mem_cons.mp hx with rfl | hx'
    · rfl
    · exact ih x hx' hsx
  | case4 c cs hc hd =>
    intro x hx hsx
    have hcol : collapse (c :: cs) = [' '] := by simp [collapse, hc, hd]
    rw [hcol] at hx
    rcases List.mem_cons.mp hx with rfl | hx'
    · rfl
    · cases hx'
  | case5 c cs hc ih =>
    intro x hx hsx
    simp only [Bool.not_eq_true] at hc
    rw [collapse_cons_not_space cs hc] at hx
    rcases List.mem_cons.mp hx with rfl | hx'
    · rw [hsx] at hc; cases hc
    · exact ih x hx' hsx

theorem collapse_chain' (l : List Char) :
    List.Chain' (fun a b => pyIsSpace a = false ∨ pyIsSpace b = false) (collapse l) := by
  induction l using collapse.induct with
  | case1 => exact List.chain'_nil
  | case2 c cs hc d hd hpd ih =>
    have hcol : collapse (c :: cs) = collapse cs := by simp [collapse, hc, hd, hpd]
    rw [hcol]
    exact ih
  | case3 c cs hc d hd hpd ih =>
    have hpd' : pyIsSpace d = false := by simpa using hpd
    have hcol : collapse (c :: cs) = ' ' :: collapse cs := by
      simp [collapse, hc, hd, hpd']
    rw [hcol, List.chain'_cons']
    refine ⟨?_, ih⟩
    intro y hy
    cases cs with
    | nil => cases hd
    | cons d' ds =>
      simp only [List.head?_cons, Option.some.injEq] at hd
      subst hd
      rw [collapse_cons_not_space ds hpd'] at hy
      simp only [List.head?_cons, Option.mem_def, Option.some.injEq] at hy
      subst hy
      exact Or.inr hpd'
  | case4 c cs hc hd =>
    have hcol : collapse (c :: cs) = [' '] := by simp [collapse, hc, hd]
    rw [hcol]
    exact List.chain'_singleton _
  | case5 c cs hc ih =>
    simp only [Bool.not_eq_true] at hc
    rw [collapse_cons_not_space cs hc, List.chain'_cons']
    exact ⟨fun y _ => Or.inl hc, ih⟩

theorem collapse_collapsed (l : List Char) : Collapsed (collapse l) :=
  ⟨collapse_mem_space l, collapse_chain' l⟩

theorem Collapsed.restrict {l m : List Char} (h : Collapsed m) (hi : l <:+: m) :
    Collapsed l :=
  ⟨fun c hc hs => h.1 c (hi.sublist.subset hc) hs, List.Chain'.infix h.2 hi⟩

theorem collapse_eq_self : ∀ {l : List Char}, Collapsed l → collapse l = l := by
  intro l
  induction l with
  | nil => intro _; rfl
  | cons c cs ih =>
    intro h
    have htail : Collapsed cs :=
      ⟨fun x hx => h.1 x (List.mem_cons_of_mem _ hx), h.2.tail⟩
    by_cases hc : pyIsSpace c = true
    · have hcsp : c = ' ' := h.1 c (List.mem_cons_self c cs) hc
      cases cs with
      | nil =>
        subst hcsp
        rfl
      | cons d ds =>
        have hrel := (List.chain'_cons'.mp h.2).1 d (by simp)
        have hd : pyIsSpace d = false := by
          rcases hrel with h' | h'
          · rw [hc] at h'; cases h'
          · exact h'
        have hcol : collapse (c :: d :: ds) = ' ' :: collapse (d :: ds) := by
          simp [collapse, hc, hd]
        rw [hcol, ih htail, hcsp]
    · simp only [Bool.not_eq_true] at hc
      rw [collapse_cons_not_space cs hc, ih htail]

theorem cleanText_idem (l : List Char) : cleanText (cleanText l) = cleanText l := by
  show pyStrip (collapse (pyStrip (collapse l))) = pyStrip (collapse l)
  rw [collapse_eq_self
        ((collapse_collapsed l).restrict (pyStrip_isInfixOfList (collapse l))),
      pyStrip_idem]

/-! Claim theorems. -/

/-- C7: cleaning is idempotent — collapsing whitespace runs and trimming
twice yields the same string as doing it once, both for the cleaning
transformation itself and as exposed through `parse_text`. -/
theorem C7_cleaning_idempotent (data : List Char) :
    cleanText (cleanText data) = cleanText data ∧
    (parse_text (parse_text data).cleaned).cleaned = (parse_text data).cleaned := by
  refine ⟨cleanText_idem data, ?_⟩
  show cleanText (cleanText data) = cleanText data
  exact cleanText_idem data

/-- C1: for every extraction record, the reviewer's overall status is a
function of word_count and char_count only: INVALID exactly when either
is zero, WARNING exactly when 1 ≤ word_count < 5 with char_count ≥ 1,
and VALID exactly when word_count ≥ 5 with char_count ≥ 1. -/
theorem C1_overall_status_trichotomy (e : ExtractionRecord) :
    ((review e).overall_status =
      determine_overall_status e.text.word_count e.text.char_count) ∧
    ((review e).overall_status = Status.INVALID ↔
      (e.text.word_count = 0 ∨ e.text.char_count = 0)) ∧
    ((review e).overall_status = Status.WARNING ↔
      (1 ≤ e.text.word_count ∧ e.text.word_count < 5 ∧ 1 ≤ e.text.char_count)) ∧
    ((review e).overall_status = Status.VALID ↔
      (5 ≤ e.text.word_count ∧ 1 ≤ e.text.char_count)) := by
  refine ⟨rfl, ?_⟩
  rw [show (review e).overall_status =
        determine_overall_status e.text.word_count e.text.char_count from rfl]
  unfold determine_overall_status
  by_cases h1 : e.text.word_count = 0 ∨ e.text.char_count = 0
  · rw [if_pos h1]
    refine ⟨⟨fun _ => h1, fun _ => rfl⟩, ?_, ?_⟩ <;> constructor <;> intro hh
    · exact absurd hh (by decide)
    · exfalso; omega
    · exact absurd hh (by decide)
    · exfalso; omega
  · rw [if_neg h1]
    by_cases h2 : e.text.word_count < 5
    · rw [if_pos h2]
      refine ⟨?_, ?_, ?_⟩ <;> constructor <;> intro hh
      · exact absurd hh (by decide)
      · exact absurd hh h1
      · omega
      · rfl
      · exact absurd hh (by decide)
      · exfalso; omega
    · rw [if_neg h2]
      refine ⟨?_, ?_, ?_⟩ <;> constructor <;> intro hh
      · exact absurd hh (by decide)
      · exact absurd hh h1
      · exact absurd hh (by decide)
      · exfalso; omega
      · omega
      · rfl

/-- C3 companion theorem: the pipeline defines no rejection path over
string inputs — every input, however degenerate, yields a report whose
pipeline_status is "completed". -/
theorem C3_pipeline_always_completes (data source_name : List Char) :
    (process data source_name).pipeline_status = "completed" := rfl

/-- C4: the metadata language hint is "likely_english" exactly when the
heuristic aggregate count (space-adjacent substring occurrences of the
seven common words, plus start-of-string matches) reaches 2, and
"unknown" exactly otherwise. -/
theorem C4_language_hint_threshold (data source_name : List Char) :
    ((capture_metadata data source_name).language_hint = "likely_english" ↔
      2 ≤ englishCount data) ∧
    ((capture_metadata data source_name).language_hint = "unknown" ↔
      englishCount data < 2) := by
  have hm : (capture_metadata data source_name).language_hint =
      detect_language_hint data := rfl
  rw [hm]
  unfold detect_language_hint
  by_cases h : 2 ≤ englishCount data
  · rw [if_pos h]
    refine ⟨⟨fun _ => h, fun _ => rfl⟩, ?_, ?_⟩
    · intro hh; exact absurd hh (by decide)
    · intro hh; exact absurd hh (by omega)
  · rw [if_neg h]
    refine ⟨⟨?_, ?_⟩, ⟨fun _ => by omega, fun _ => rfl⟩⟩
    · intro hh; exact absurd hh (by decide)
    · intro hh; exact absurd hh h

/-- C5: validate_points runs exactly four independent checks whose pass
flags equal their defining conditions, reports total_checks = 4 and
passed as the count of passing checks, and yields score = passed/4,
always within [0, 1]. -/
theorem C5_validation_summary (t : TextData) (m : Metadata) :
    (validate_points t m).word_count.valid = decide (1 ≤ t.word_count) ∧
    (validate_points t m).char_count.valid = decide (1 ≤ t.char_count) ∧
    (validate_points t m).sentence_structure.valid = decide (0 < t.sentence_count) ∧
    (validate_points t m).data_size.valid = decide (0 < m.data_size_bytes) ∧
    (validate_points t m).summary.total_checks = 4 ∧
    (validate_points t m).summary.passed =
      [decide (1 ≤ t.word_count), decide (1 ≤ t.char_count),
       decide (0 < t.sentence_count), decide (0 < m.data_size_bytes)].countP id ∧
    (validate_points t m).summary.score =
      ((validate_points t m).summary.passed : ℚ) / 4 ∧
    0 ≤ (validate_points t m).summary.score ∧
    (validate_points t m).summary.score ≤ 1 := by
  by_cases h1 : 1 ≤ t.word_count <;>
    by_cases h2 : 1 ≤ t.char_count <;>
      by_cases h3 : 0 < t.sentence_count <;>
        by_cases h4 : 0 < m.data_size_bytes <;>
    simp [validate_points, min_words, min_chars, h1, h2, h3, h4,
          List.countP_cons, List.countP_nil] <;>
    norm_num

/-- C8: the report's data preview is the raw text itself when it has at
most 100 characters, and the first 100 characters followed by "..."
when it is longer. -/
theorem C8_data_preview_truncation (data source_name : List Char) :
    (data.length ≤ 100 →
      (process data source_name).input.data_preview = data) ∧
    (100 < data.length →
      (process data source_name).input.data_preview =
        data.take 100 ++ "...".toList) := by
  constructor <;> intro h
  · show dataPreview data = data
    unfold dataPreview
    rw [if_neg (by omega)]
  · show dataPreview data = data.take 100 ++ "...".toList
    unfold dataPreview
    rw [if_pos h]

/-- Witness for C8: a short input is previewed verbatim; an input of 200
repeated characters is truncated to its first 100 characters plus
"...". -/
theorem C8_data_preview_truncation_witness :
    (process ("hi".toList) ("s".toList)).input.data_preview = "hi".toList ∧
    (process (List.replicate 200 'x') ("s".toList)).input.data_preview =
      (List.replicate 200 'x').take 100 ++ "...".toList := by
  constructor
  · exact (C8_data_preview_truncation ("hi".toList) ("s".toList)).1 (by decide)
  · exact (C8_data_preview_truncation (List.replicate 200 'x') ("s".toList)).2
      (by rw [List.length_replicate]; norm_num)

/-- C6: word_details is the prefix of the per-token analyses — exactly
min(total_words, 100) entries, in original order with positions
0,1,2,... — while every aggregate statistic ranges over the full token
sequence. -/
theorem C6_word_details_truncation (t : TextData) :
    (verify_words t).word_details.length = min (verify_words t).total_words 100 ∧
    (verify_words t).word_details.map (fun d => d.word) = t.words.take 100 ∧
    (verify_words t).word_details.map (fun d => d.position) =
      List.range (min t.words.length 100) ∧
    (verify_words t).total_words = t.words.length ∧
    (verify_words t).alpha_words = t.words.countP pyIsAlphaStr ∧
    (verify_words t).numeric_words = t.words.countP pyIsDigitStr ∧
    (verify_words t).alphanumeric_words =
      (t.words.length : Int) - t.words.countP pyIsAlphaStr -
        t.words.countP pyIsDigitStr ∧
    (verify_words t).average_word_length =
      (if 0 < t.words.length then
        ((t.words.map List.length).sum : ℚ) / t.words.length else 0) ∧
    (verify_words t).unique_words = t.words.dedup.length := by
  refine ⟨?_, ?_, ?_, rfl, rfl, rfl, rfl, rfl, rfl⟩
  · show ((t.words.enum.map (fun p => analyzeWord p.1 p.2)).take 100).length =
      min t.words.length 100
    rw [List.length_take, List.length_map, List.enum_length, Nat.min_comm]
  · show ((t.words.enum.map (fun p => analyzeWord p.1 p.2)).take 100).map
        (fun d => d.word) = t.words.take 100
    rw [← List.map_take, List.map_map]
    have hcomp : ((fun d : WordDetail => d.word) ∘ fun p : Nat × List Char =>
        analyzeWord p.1 p.2) = Prod.snd := rfl
    rw [hcomp, List.map_take, List.enum_map_snd]
  · show ((t.words.enum.map (fun p => analyzeWord p.1 p.2)).take 100).map
        (fun d => d.position) = List.range (min t.words.length 100)
    rw [← List.map_take, List.map_map]
    have hcomp : ((fun d : WordDetail => d.position) ∘ fun p : Nat × List Char =>
        analyzeWord p.1 p.2) = Prod.fst := rfl
    rw [hcomp, List.map_take, List.enum_map_fst, List.take_range, Nat.min_comm]

/-- Helper: the content-based phase always yields one of the five fixed
type/confidence pairs. -/
theorem contentDetect_cases (data : List Char) :
    contentDetect data = ("json", 7/10) ∨ contentDetect data = ("xml", 7/10) ∨
    contentDetect data = ("md", 3/5) ∨ contentDetect data = ("csv", 1/2) ∨
    contentDetect data = ("txt", 1/2) := by
  unfold contentDetect
  split
  · exact Or.inl rfl
  · split
    · exact Or.inr (Or.inl rfl)
    · split
      · exact Or.inr (Or.inr (Or.inl rfl))
      · split
        · exact Or.inr (Or.inr (Or.inr (Or.inl rfl)))
        · exact Or.inr (Or.inr (Or.inr (Or.inr rfl)))

/-- Helper: whenever the extension phase does not resolve — no dot, or an
unsupported extension — detect_format returns the content-phase result. -/
theorem detect_format_content (data source_name : List Char)
    (h : ∀ e, lastExtension source_name = some e →
      String.mk e ∉ supported_formats) :
    detect_format data source_name =
      { detected_type := (contentDetect data).1
        confidence := (contentDetect data).2
        supported := decide ((contentDetect data).1 ∈ supported_formats) } := by
  unfold detect_format
  cases he : lastExtension source_name with
  | none => rfl
  | some e =>
    have hs := h e he
    simp [hs]

/-- C9: detect_format never reports "unknown": the detected type is
always in the supported-format set, the supported flag is always true,
and the confidence is always one of 0.5, 0.6, 0.7, 0.8 — never 0. -/
theorem C9_detected_type_never_unknown (data source_name : List Char) :
    (detect_format data source_name).detected_type ≠ "unknown" ∧
    (detect_format data source_name).detected_type ∈ supported_formats ∧
    (detect_format data source_name).supported = true ∧
    ((detect_format data source_name).confidence = 1/2 ∨
     (detect_format data source_name).confidence = 3/5 ∨
     (detect_format data source_name).confidence = 7/10 ∨
     (detect_format data source_name).confidence = 4/5) ∧
    (detect_format data source_name).confidence ≠ 0 := by
  by_cases hext : ∀ e, lastExtension source_name = some e →
      String.mk e ∉ supported_formats
  · rw [detect_format_content data source_name hext]
    rcases contentDetect_cases data with h | h | h | h | h <;> rw [h]
    · exact ⟨by decide, by decide, rfl, Or.inr (Or.inr (Or.inl rfl)), by norm_num⟩
    · exact ⟨by decide, by decide, rfl, Or.inr (Or.inr (Or.inl rfl)), by norm_num⟩
    · exact ⟨by decide, by decide, rfl, Or.inr (Or.inl rfl), by norm_num⟩
    · exact ⟨by decide, by decide, rfl, Or.inl rfl, by norm_num⟩
    · exact ⟨by decide, by decide, rfl, Or.inl rfl, by norm_num⟩
  · push_neg at hext
    rcases hext with ⟨e, he, hs⟩
    have hdf : detect_format data source_name =
        { detected_type := String.mk e, confidence := 4/5, supported := true } := by
      unfold detect_format
      simp [he, hs]
    rw [hdf]
    refine ⟨?_, hs, rfl, Or.inr (Or.inr (Or.inr rfl)), by norm_num⟩
    intro hu
    have hu' : String.mk e = "unknown" := hu
    rw [hu'] at hs
    exact absurd hs (by decide)

/-- C2 counterexample: for the text "a,b\n# x" with source name "notes"
(no extension), the second line starts with '#' followed by whitespace
while no earlier content rule applies, so the claim's any-line markdown
rule demands md/0.6 — but the code returns csv/0.5, because `re.match`
only ever tests the start of the whole text. -/
theorem C2_md_any_line_counterexample :
    specMdAnyLine ("a,b\n# x".toList) = true ∧
    lastExtension ("notes".toList) = none ∧
    ((pyStrip ("a,b\n# x".toList)).head? == some '{' &&
      (pyStrip ("a,b\n# x".toList)).getLast? == some '}') = false ∧
    ((pyStrip ("a,b\n# x".toList)).head? == some '<' &&
      (pyStrip ("a,b\n# x".toList)).getLast? == some '>') = false ∧
    (detect_format ("a,b\n# x".toList) ("notes".toList)).detected_type = "csv" ∧
    (detect_format ("a,b\n# x".toList) ("notes".toList)).confidence = 1/2 ∧
    (detect_format ("a,b\n# x".toList) ("notes".toList)).detected_type ≠ "md" :=
  ⟨rfl, rfl, rfl, rfl, rfl, rfl, by decide⟩

/-- C2 (amended): format detection runs in two phases with
first-match-wins.  Phase 1: a supported lower-cased last extension gives
that type with confidence 0.8, winning over any content match.  Phase 2
(only when phase 1 does not resolve): the trimmed text braced by { }
gives json/0.7; else angle-bracketed gives xml/0.7; else a text that
STARTS with one or more '#' followed by whitespace gives md/0.6; else a
comma and a newline give csv/0.5; else txt/0.5. -/
theorem C2_format_detection_phases (data source_name : List Char) :
    (∀ e, lastExtension source_name = some e →
      String.mk e ∈ supported_formats →
      detect_format data source_name =
        { detected_type := String.mk e, confidence := 4/5, supported := true }) ∧
    ((∀ e, lastExtension source_name = some e →
        String.mk e ∉ supported_formats) →
      (((pyStrip data).head? == some '{' &&
          (pyStrip data).getLast? == some '}') = true →
        detect_format data source_name =
          { detected_type := "json", confidence := 7/10, supported := true }) ∧
      (((pyStrip data).head? == some '{' &&
          (pyStrip data).getLast? == some '}') = false →
        ((pyStrip data).head? == some '<' &&
          (pyStrip data).getLast? == some '>') = true →
        detect_format data source_name =
          { detected_type := "xml", confidence := 7/10, supported := true }) ∧
      (((pyStrip data).head? == some '{' &&
          (pyStrip data).getLast? == some '}') = false →
        ((pyStrip data).head? == some '<' &&
          (pyStrip data).getLast? == some '>') = false →
        mdMatch data = true →
        detect_format data source_name =
          { detected_type := "md", confidence := 3/5, supported := true }) ∧
      (((pyStrip data).head? == some '{' &&
          (pyStrip data).getLast? == some '}') = false →
        ((pyStrip data).head? == some '<' &&
          (pyStrip data).getLast? == some '>') = false →
        mdMatch data = false →
        (data.contains ',' && data.contains '\n') = true →
        detect_format data source_name =
          { detected_type := "csv", confidence := 1/2, supported := true }) ∧
      (((pyStrip data).head? == some '{' &&
          (pyStrip data).getLast? == some '}') = false →
        ((pyStrip data).head? == some '<' &&
          (pyStrip data).getLast? == some '>') = false →
        mdMatch data = false →
        (data.contains ',' && data.contains '\n') = false →
        detect_format data source_name =
          { detected_type := "txt", confidence := 1/2, supported := true })) := by
  constructor
  · intro e he hs
    unfold detect_format
    simp [he, hs]
  · intro hext
    have hc := detect_format_content data source_name hext
    refine ⟨?_, ?_, ?_, ?_, ?_⟩
    · intro h1
      rw [hc]
      unfold contentDetect
      rw [if_pos h1]
      rfl
    · intro h1 h2
      rw [hc]
      unfold contentDetect
      rw [if_neg (by rw [h1]; simp), if_pos h2]
      rfl
    · intro h1 h2 h3
      rw [hc]
      unfold contentDetect
      rw [if_neg (by rw [h1]; simp), if_neg (by rw [h2]; simp), if_pos h3]
      rfl
    · intro h1 h2 h3 h4
      rw [hc]
      unfold contentDetect
      rw [if_neg (by rw [h1]; simp), if_neg (by rw [h2]; simp),
          if_neg (by rw [h3]; simp), if_pos h4]
      rfl
    · intro h1 h2 h3 h4
      rw [hc]
      unfold contentDetect
      rw [if_neg (by rw [h1]; simp), if_neg (by rw [h2]; simp),
          if_neg (by rw [h3]; simp), if_neg (by rw [h4]; simp)]
      rfl

/-- Witness for C2: the spec's own scenario — JSON-shaped content named
"data.json" resolves by extension to json/0.8; and a text starting with
"# " under an extensionless name resolves by content to md/0.6. -/
theorem C2_format_detection_phases_witness :
    detect_format ("\x7b\"name\": \"test\", \"value\": 123\x7d".toList)
        ("data.json".toList) =
      { detected_type := "json", confidence := 4/5, supported := true } ∧
    detect_format ("# hi there".toList) ("README".toList) =
      { detected_type := "md", confidence := 3/5, supported := true } := by
  constructor
  · exact (C2_format_detection_phases
      ("\x7b\"name\": \"test\", \"value\": 123\x7d".toList) ("data.json".toList)).1
      ("json".toList) rfl (by decide)
  · have hext : ∀ e, lastExtension ("README".toList) = some e →
        String.mk e ∉ supported_formats := by
      intro e he
      rw [show lastExtension ("README".toList) = none from rfl] at he
      cases he
    exact ((C2_format_detection_phases ("# hi there".toList)
      ("README".toList)).2 hext).2.2.1 rfl rfl rfl

/-! Lemmas toward claim C10. -/

theorem isWordChar_not_space_sep {c : Char} (h : isWordChar c = true) :
    pyIsSpace c = false ∧ isSentenceSep c = false := by
  constructor
  · by_contra hsp
    rw [Bool.not_eq_false] at hsp
    simp only [pyIsSpace, Bool.or_eq_true, beq_iff_eq] at hsp
    rcases hsp with ((((rfl | rfl) | rfl) | rfl) | rfl) | rfl <;>
      exact absurd h (by decide)
  · by_contra hsep
    rw [Bool.not_eq_false] at hsep
    simp only [isSentenceSep, Bool.or_eq_true, beq_iff_eq] at hsep
    rcases hsep with (rfl | rfl) | rfl <;> exact absurd h (by decide)

theorem wordsOf_ne_nil_exists {l : List Char} (h : wordsOf l ≠ []) :
    ∃ c ∈ l, isWordChar c = true := by
  induction l with
  | nil => exact absurd rfl h
  | cons c cs ih =>
    by_cases hc : isWordChar c = true
    · exact ⟨c, List.mem_cons_self c cs, hc⟩
    · have hstep : wordsOf (c :: cs) = wordsOf cs := by
        simp only [Bool.not_eq_true] at hc
        simp [wordsOf, hc]
      rw [hstep] at h
      rcases ih h with ⟨x, hx, hxw⟩
      exact ⟨x, List.mem_cons_of_mem _ hx, hxw⟩

theorem splitSeps_ne_nil (l : List Char) : splitSeps l ≠ [] := by
  induction l with
  | nil => simp [splitSeps]
  | cons c cs ih =>
    by_cases hc : isSentenceSep c = true
    · cases hcs : cs.head? with
      | none => simp [splitSeps, hc, hcs]
      | some d =>
        by_cases hd : isSentenceSep d = true
        · simpa [splitSeps, hc, hcs, hd] using ih
        · simp only [Bool.not_eq_true] at hd
          simp [splitSeps, hc, hcs, hd]
    · simp only [Bool.not_eq_true] at hc
      cases hsp : splitSeps cs with
      | nil => exact absurd hsp ih
      | cons s ts => simp [splitSeps, hc, hsp]

theorem splitSeps_mem {l : List Char} {c : Char} (hc : c ∈ l)
    (hs : isSentenceSep c = false) : ∃ seg ∈ splitSeps l, c ∈ seg := by
  induction l with
  | nil => cases hc
  | cons a as ih =>
    by_cases ha : isSentenceSep a = true
    · have hca : c ≠ a := by
        intro h
        rw [h, ha] at hs
        cases hs
      have hcas : c ∈ as := by
        rcases List.mem_cons.mp hc with rfl | h'
        · exact absurd rfl hca
        · exact h'
      rcases ih hcas with ⟨seg, hseg, hcseg⟩
      cases has : as.head? with
      | none =>
        rw [List.head?_eq_none_iff] at has
        rw [has] at hcas
        cases hcas
      | some d =>
        by_cases hd : isSentenceSep d = true
        · refine ⟨seg, ?_, hcseg⟩
          have hstep : splitSeps (a :: as) = splitSeps as := by
            simp [splitSeps, ha, has, hd]
          rw [hstep]
          exact hseg
        · refine ⟨seg, ?_, hcseg⟩
          simp only [Bool.not_eq_true] at hd
          have hstep : splitSeps (a :: as) = [] :: splitSeps as := by
            simp [splitSeps, ha, has, hd]
          rw [hstep]
          exact List.mem_cons_of_mem _ hseg
    · simp only [Bool.not_eq_true] at ha
      cases hsp : splitSeps as with
      | nil => exact absurd hsp (splitSeps_ne_nil as)
      | cons s ts =>
        have heq : splitSeps (a :: as) = (a :: s) :: ts := by
          simp [splitSeps, ha, hsp]
        rcases List.mem_cons.mp hc with hceq | hcas
        · exact ⟨a :: s, by rw [heq]; exact List.mem_cons_self _ _,
            by rw [hceq]; exact List.mem_cons_self _ _⟩
        · rcases ih hcas with ⟨seg, hseg, hcseg⟩
          rw [hsp] at hseg
          rcases List.mem_cons.mp hseg with rfl | hseg'
          · exact ⟨a :: seg, by rw [heq]; exact List.mem_cons_self _ _,
              List.mem_cons_of_mem _ hcseg⟩
          · exact ⟨seg, by rw [heq]; exact List.mem_cons_of_mem _ hseg', hcseg⟩

theorem mem_pyStrip {c : Char} {l : List Char} (hc : c ∈ l)
    (hs : pyIsSpace c = false) : c ∈ pyStrip l := by
  unfold pyStrip stripRight stripLeft
  rw [List.mem_reverse]
  apply mem_dropWhile_of_not pyIsSpace _ c _ hs
  rw [List.mem_reverse]
  exact mem_dropWhile_of_not pyIsSpace l c hc hs

theorem sentencesOf_ne_nil {l : List Char} {c : Char} (hc : c ∈ l)
    (hsep : isSentenceSep c = false) (hsp : pyIsSpace c = false) :
    sentencesOf l ≠ [] := by
  rcases splitSeps_mem hc hsep with ⟨seg, hseg, hcseg⟩
  have hcs : c ∈ pyStrip seg := mem_pyStrip hcseg hsp
  have hmem : pyStrip seg ∈ (splitSeps l).map pyStrip :=
    List.mem_map_of_mem pyStrip hseg
  have hne : (pyStrip seg).isEmpty = false := by
    cases hps : pyStrip seg with
    | nil => rw [hps] at hcs; cases hcs
    | cons x xs => rfl
  intro hnil
  have hin : pyStrip seg ∈ sentencesOf l := by
    unfold sentencesOf
    rw [List.mem_filter]
    exact ⟨hmem, by rw [hne]; rfl⟩
  rw [hnil] at hin
  cases hin

theorem utf8CharSize_pos (c : Char) : 1 ≤ utf8CharSize c := by
  unfold utf8CharSize
  repeat' split
  all_goals norm_num

theorem utf8ByteLength_pos {l : List Char} (h : l ≠ []) :
    1 ≤ utf8ByteLength l := by
  cases l with
  | nil => exact absurd rfl h
  | cons c cs =>
    have hc := utf8CharSize_pos c
    unfold utf8ByteLength
    rw [List.map_cons, List.sum_cons]
    omega

/-- C10: if extraction finds at least one word token, then char_count,
sentence_count and data_size_bytes are all at least 1 as well, the four
validation checks all pass (score exactly 1), and the overall status is
WARNING or VALID — never INVALID. -/
theorem C10_nonzero_words_all_checks_pass (data source_name : List Char)
    (h : 1 ≤ (extract data source_name).text.word_count) :
    1 ≤ (extract data source_name).text.char_count ∧
    1 ≤ (extract data source_name).text.sentence_count ∧
    1 ≤ (extract data source_name).metadata.data_size_bytes ∧
    (validate_points (extract data source_name).text
      (extract data source_name).metadata).summary.passed = 4 ∧
    (validate_points (extract data source_name).text
      (extract data source_name).metadata).summary.score = 1 ∧
    (review (extract data source_name)).overall_status ≠ Status.INVALID ∧
    ((review (extract data source_name)).overall_status = Status.WARNING ∨
     (review (extract data source_name)).overall_status = Status.VALID) := by
  have hwcount : (extract data source_name).text.word_count =
      (wordsOf (cleanText data)).length := rfl
  have hccount : (extract data source_name).text.char_count = data.length := rfl
  have hscount : (extract data source_name).text.sentence_count =
      (sentencesOf (cleanText data)).length := rfl
  have hsize : (extract data source_name).metadata.data_size_bytes =
      utf8ByteLength data := rfl
  have hwords : wordsOf (cleanText data) ≠ [] := by
    intro hnil
    rw [hwcount, hnil] at h
    simp at h
  rcases wordsOf_ne_nil_exists hwords with ⟨c, hcmem, hcw⟩
  obtain ⟨hnsp, hnsep⟩ := isWordChar_not_space_sep hcw
  have hdata : data ≠ [] := by
    intro hd
    rw [hd] at hwords
    exact hwords rfl
  have hchar : 1 ≤ data.length := by
    cases data with
    | nil => exact absurd rfl hdata
    | cons x xs => simp
  have hsentne : sentencesOf (cleanText data) ≠ [] :=
    sentencesOf_ne_nil hcmem hnsep hnsp
  have hsent : 1 ≤ (sentencesOf (cleanText data)).length := by
    cases hx : sentencesOf (cleanText data) with
    | nil => exact absurd hx hsentne
    | cons y ys => simp
  have hbytes : 1 ≤ utf8ByteLength data := utf8ByteLength_pos hdata
  have hv2 : 1 ≤ (extract data source_name).text.char_count := by
    rw [hccount]; exact hchar
  have hv3 : 0 < (extract data source_name).text.sentence_count := by
    rw [hscount]; exact hsent
  have hv4 : 0 < (extract data source_name).metadata.data_size_bytes := by
    rw [hsize]; exact hbytes
  have hpassed : (validate_points (extract data source_name).text
      (extract data source_name).metadata).summary.passed = 4 := by
    simp [validate_points, min_words, min_chars, h, hv2, hv3, hv4,
          List.countP_cons, List.countP_nil]
  have hscore : (validate_points (extract data source_name).text
      (extract data source_name).metadata).summary.score = 1 := by
    have hdiv : (validate_points (extract data source_name).text
        (extract data source_name).metadata).summary.score =
        ((validate_points (extract data source_name).text
          (extract data source_name).metadata).summary.passed : ℚ) / 4 := rfl
    rw [hdiv, hpassed]
    norm_num
  have hstat : (review (extract data source_name)).overall_status =
      determine_overall_status (extract data source_name).text.word_count
        (extract data source_name).text.char_count := rfl
  have hcond : ¬((extract data source_name).text.word_count = 0 ∨
      (extract data source_name).text.char_count = 0) := by omega
  refine ⟨hv2, hv3, hv4, hpassed, hscore, ?_, ?_⟩
  · rw [hstat]
    unfold determine_overall_status
    rw [if_neg hcond]
    split <;> simp
  · rw [hstat]
    unfold determine_overall_status
    rw [if_neg hcond]
    split
    · exact Or.inl rfl
    · exact Or.inr rfl

/-- Witness for C10 at the input "hi": extraction yields one word token
and every consequence of the theorem holds. -/
theorem C10_nonzero_words_all_checks_pass_witness :
    1 ≤ (extract ("hi".toList) ("s".toList)).text.word_count ∧
    (1 ≤ (extract ("hi".toList) ("s".toList)).text.char_count ∧
    1 ≤ (extract ("hi".toList) ("s".toList)).text.sentence_count ∧
    1 ≤ (extract ("hi".toList) ("s".toList)).metadata.data_size_bytes ∧
    (validate_points (extract ("hi".toList) ("s".toList)).text
      (extract ("hi".toList) ("s".toList)).metadata).summary.passed = 4 ∧
    (validate_points (extract ("hi".toList) ("s".toList)).text
      (extract ("hi".toList) ("s".toList)).metadata).summary.score = 1 ∧
    (review (extract ("hi".toList) ("s".toList))).overall_status ≠
      Status.INVALID ∧
    ((review (extract ("hi".toList) ("s".toList))).overall_status =
      Status.WARNING ∨
     (review (extract ("hi".toList) ("s".toList))).overall_status =
      Status.VALID)) :=
  ⟨by decide,
   C10_nonzero_words_all_checks_pass ("hi".toList) ("s".toList) (by decide)⟩
